import Mathlib

/-!
Shallow embedding of the buffered, rotation-aware log handle manager of
`src/src/terminal/logfile.c` (the ImmorTerm logging subsystem).

The C code manipulates a global intrusive list `logroot` of `Log` records.
Here the registry is an explicit `List Log`; handles are identified by a
numeric `id` standing for pointer identity.  Syscall outcomes (`fstat`,
`fwrite`, `malloc`, `open`, `dup`) are supplied by an explicit environment
record `SysEnv`, so every operation is a pure function of its inputs.
A `FILE *` stream is modelled by the sequence of bytes successfully
delivered to the current backing file, plus a closed flag; writing to a
closed stream delivers nothing and fails.
-/

namespace ImmorTerm

/-- Modelled from the spec: the configuration constants `LOG_BUFFER_SIZE`
and `LOG_STAT_CHECK_INTERVAL` come from `logfile.h`, which is not under
`src/`; the spec (§6) says they are fixed, implementation-chosen values
(write-buffer capacity, and rotation-check interval in flushes).  The
model is parametric in them. -/
structure LogCfg where
  bufSize : Nat
  statInterval : Int
  deriving DecidableEq

/-- The fields of `struct stat` that `logfile.c` reads. -/
structure Stat where
  st_dev : Nat
  st_ino : Nat
  st_nlink : Nat
  st_size : Nat
  st_mtime : Int
  st_ctime : Int
  deriving DecidableEq

/-- The all-zero `struct stat` produced by `calloc` in `logfopen`. -/
def statZero : Stat := ⟨0, 0, 0, 0, 0, 0⟩

/-- A `FILE *` stream: bytes delivered to the current backing file so far,
and whether the underlying descriptor has been closed. -/
structure Stream where
  closed : Bool
  content : List Nat
  deriving DecidableEq

/-- `fwrite(bytes, n, 1, fp)`: delivers the bytes and returns one complete
item on success; returns zero items when the byte count is zero (C11
7.21.8.2), the descriptor is closed, or the environment makes the write
fail (disk full and the like). -/
def fwriteS (fp : Stream) (bytes : List Nat) (ok : Bool) : Stream × Bool :=
  if bytes = [] ∨ fp.closed = true ∨ ok = false then (fp, false)
  else ({ fp with content := fp.content ++ bytes }, true)

/-- One `Log` record of `logfile.c`.  `id` stands for pointer identity;
`buffer = none` is an unallocated write buffer, `some bs` an allocated
buffer holding the `buflen` bytes `bs`. -/
structure Log where
  id : Nat
  name : String
  opencount : Int
  writecount : Nat
  flushcount : Nat
  buffer : Option (List Nat)
  st : Stat
  stat_countdown : Int
  fp : Stream
  deriving DecidableEq

/-- Outcomes of the syscalls one registry operation may perform. -/
structure SysEnv where
  /-- result of the `fstat` in `stolen_logfile` (`none` = fstat failed) -/
  fstatRes : Option Stat
  /-- result of the `fstat` in the subsequent `changed_logfile` -/
  fstatRes2 : Option Stat
  /-- the `open` in `logfile_reopen` succeeds -/
  reopenOpenOk : Bool
  /-- the `lf_move_fd` relocation in `logfile_reopen` succeeds -/
  reopenMoveOk : Bool
  /-- result of the `fstat` in the `changed_logfile` after a reopen -/
  reopenStat : Option Stat
  /-- the best-effort final `fwrite` in `logfclose` succeeds -/
  closeWriteOk : Bool
  /-- the lazy `malloc(LOG_BUFFER_SIZE)` in `logfwrite` succeeds -/
  allocOk : Bool
  /-- the buffer-drain `fwrite` in `flush_log_buffer` succeeds -/
  writeOk : Bool
  /-- the direct `fwrite` of an oversized chunk succeeds -/
  directOk : Bool
  /-- `fflush` succeeds -/
  fflushOk : Bool
  deriving DecidableEq

/-- `changed_logfile`: refresh the cached size and mtime when the file has
grown; a failed `fstat` leaves the cache alone. -/
def changed_logfile (s : Stat) (fres : Option Stat) : Stat :=
  match fres with
  | none => s
  | some o => if s.st_size < o.st_size
              then { s with st_size := o.st_size, st_mtime := o.st_mtime }
              else s

/-- The cached stat after the `fstat` at the top of `stolen_logfile`: on
failure only `st_dev` and `st_ino` are zeroed, the rest keeps its old
values. -/
def stolenStat (old : Stat) (fres : Option Stat) : Stat :=
  match fres with
  | some f => f
  | none => { old with st_dev := 0, st_ino := 0 }

/-- `stolen_logfile`: returns (stolen?, updated cached stat). -/
def stolen_logfile (old : Stat) (fres : Option Stat) : Bool × Stat :=
  let s := stolenStat old fres
  if old.st_dev = 0 ∧ old.st_ino = 0 then (false, s)
  else if (s.st_dev = 0 ∧ s.st_ino = 0) ∨ s.st_nlink = 0 ∨
          s.st_size < old.st_size ∨ s.st_mtime ≠ old.st_mtime ∨
          (s.st_ctime ≠ old.st_ctime ∧
           ¬(s.st_mtime = s.st_ctime ∧ old.st_ctime < s.st_ctime))
  then (true, s)
  else (false, s)

/-- `periodic_stat_check`: decrement the countdown; when it reaches zero,
reset it to the interval and run the theft check, refreshing the cache via
`changed_logfile` on the non-stolen path.  Returns (handle, theft?). -/
def periodic_stat_check (cfg : LogCfg) (l : Log) (env : SysEnv) : Log × Bool :=
  if l.stat_countdown - 1 > 0 then
    ({ l with stat_countdown := l.stat_countdown - 1 }, false)
  else
    let r := stolen_logfile l.st env.fstatRes
    if r.1 then
      ({ l with stat_countdown := cfg.statInterval, st := r.2 }, true)
    else
      ({ l with stat_countdown := cfg.statInterval,
                st := changed_logfile r.2 env.fstatRes2 }, false)

/-- `flush_log_buffer`: drain the write buffer with one `fwrite`; on
failure the buffered bytes are dropped (`buflen = 0`) and -1 is returned;
on success `writecount` is incremented. -/
def flush_log_buffer (l : Log) (ok : Bool) : Log × Int :=
  match l.buffer with
  | none => (l, 0)
  | some bs =>
    if bs = [] then (l, 0)
    else
      let w := fwriteS l.fp bs ok
      if w.2 then
        ({ l with fp := w.1, buffer := some [], writecount := l.writecount + 1 }, 0)
      else
        ({ l with fp := w.1, buffer := some [] }, -1)

/-- Result of an operation on one handle, as seen by the registry:
the handle survives (possibly modified), the handle is removed (its final
stream state recorded for observation), or the defensive `abort()` in
`logfclose` fired. -/
inductive HRes where
  | keep (l : Log) (ret : Int)
  | drop (fp : Stream) (ret : Int)
  | aborted
  deriving DecidableEq

/-- Result of a registry operation: a C return value (0, 1 or -1) plus the
not-registered (-1 from the list scan) and abort cases. -/
inductive RRes where
  | ok (reg : List Log) (ret : Int)
  | notRegistered
  | aborted
  deriving DecidableEq

/-- Apply a handle operation to the registry entry with the given id
(pointer identity), leaving all other entries untouched. -/
def liftReg (f : Log → HRes) : List Log → Nat → RRes
  | [], _ => .notRegistered
  | l :: rest, i =>
    if l.id = i then
      match f l with
      | .keep l' r => .ok (l' :: rest) r
      | .drop _ r => .ok rest r
      | .aborted => .aborted
    else
      match liftReg f rest i with
      | .ok reg' r => .ok (l :: reg') r
      | .notRegistered => .notRegistered
      | .aborted => .aborted

/-- The body of `logfclose` once the handle has been found: decrement
`opencount`; while positive the handle survives; a negative count is the
defensive `abort()`; at zero the handle is torn down (best-effort final
drain of the buffer, then `fclose`). -/
inductive CloseOut where
  | stay (l : Log)
  | gone (fp : Stream)
  | aborted
  deriving DecidableEq

def logfcloseH (l : Log) (ok : Bool) : CloseOut :=
  if l.opencount - 1 > 0 then .stay { l with opencount := l.opencount - 1 }
  else if l.opencount - 1 < 0 then .aborted
  else
    let fp1 := match l.buffer with
      | some bs => (fwriteS l.fp bs ok).1
      | none => l.fp
    .gone { fp1 with closed := true }

/-- `logfclose`: scan the registry for the handle; -1 (`notRegistered`)
when it is not there. -/
def logfclose (reg : List Log) (i : Nat) (ok : Bool) : RRes :=
  liftReg (fun l =>
    match logfcloseH l ok with
    | .stay l' => .keep l' 0
    | .gone fp => .drop fp 0
    | .aborted => .aborted) reg i

/-- `logfile_reopen` on one handle: close the descriptor first; if the
`open` or the `lf_move_fd` relocation fails, `logfclose` the handle and
return -1; otherwise install the fresh stream and refresh the cache via
`changed_logfile`, returning 0. -/
def logfile_reopenH (l : Log) (env : SysEnv) : HRes :=
  let l1 : Log := { l with fp := { l.fp with closed := true } }
  if env.reopenOpenOk = true ∧ env.reopenMoveOk = true then
    .keep { l1 with fp := { closed := false, content := [] },
                    st := changed_logfile l1.st env.reopenStat } 0
  else
    match logfcloseH l1 env.closeWriteOk with
    | .stay l' => .keep l' (-1)
    | .gone fp => .drop fp (-1)
    | .aborted => .aborted

/-- `logfile_reopen` as a registry operation. -/
def logfile_reopen (reg : List Log) (i : Nat) (env : SysEnv) : RRes :=
  liftReg (fun l => logfile_reopenH l env) reg i

/-- `logfwrite` after a successful drain: buffer the chunk when it fits in
the emptied buffer, otherwise write it directly (counting a completed
write and resetting `flushcount`). -/
def logfwriteH3 (cfg : LogCfg) (buf : List Nat) (env : SysEnv) (l : Log) : HRes :=
  let fl := flush_log_buffer l env.writeOk
  if fl.2 < 0 then .keep fl.1 (-1)
  else if buf.length ≤ cfg.bufSize then
    .keep { fl.1 with buffer := some buf } 1
  else
    let w := fwriteS fl.1.fp buf env.directOk
    if w.2 then
      .keep { fl.1 with fp := w.1, writecount := fl.1.writecount + 1,
                        flushcount := 0 } 1
    else .keep { fl.1 with fp := w.1 } (-1)

/-- `logfwrite` once the buffer is known allocated: the fit fast path
appends with no syscall; the overflow path runs the periodic check, the
reopen on theft, then the drain. -/
def logfwriteH2 (cfg : LogCfg) (buf : List Nat) (env : SysEnv) (l : Log) : HRes :=
  let bs := l.buffer.getD []
  if bs.length + buf.length ≤ cfg.bufSize then
    .keep { l with buffer := some (bs ++ buf) } 1
  else
    let p := periodic_stat_check cfg l env
    if p.2 then
      match logfile_reopenH p.1 env with
      | .keep l2 r => if r = 0 then logfwriteH3 cfg buf env l2 else .keep l2 (-1)
      | .drop fp _ => .drop fp (-1)
      | .aborted => .aborted
    else logfwriteH3 cfg buf env p.1

/-- `logfwrite` on one handle, including the lazy buffer allocation and
its unbuffered fallback, which returns the raw `fwrite` item count. -/
def logfwriteH (cfg : LogCfg) (buf : List Nat) (env : SysEnv) (l : Log) : HRes :=
  match l.buffer with
  | none =>
    if env.allocOk then logfwriteH2 cfg buf env { l with buffer := some [] }
    else
      let w := fwriteS l.fp buf env.directOk
      .keep { l with fp := w.1 } (if w.2 then 1 else 0)
  | some _ => logfwriteH2 cfg buf env l

/-- `logfwrite` as a registry operation. -/
def logfwrite (cfg : LogCfg) (reg : List Log) (i : Nat) (buf : List Nat)
    (env : SysEnv) : RRes :=
  liftReg (logfwriteH cfg buf env) reg i

/-- One handle's share of `logfflush`: periodic check, reopen on theft,
drain, `fflush`, `flushcount` increment.  `ok` carries the `fflush`
outcome; `fail` is a -1 return with the handle surviving; `failGone` is a
-1 return after the reopen failure tore the handle down. -/
inductive FStep where
  | ok (l : Log) (ffOk : Bool)
  | fail (l : Log)
  | failGone (fp : Stream)
  | aborted
  deriving DecidableEq

/-- The drain + `fflush` + `flushcount` tail of `logfflush`. -/
def flushStepH2 (l : Log) (env : SysEnv) : FStep :=
  let fl := flush_log_buffer l env.writeOk
  if fl.2 < 0 then .fail fl.1
  else .ok { fl.1 with flushcount := fl.1.flushcount + 1 } env.fflushOk

/-- One handle's share of `logfflush`. -/
def flushStepH (cfg : LogCfg) (l : Log) (env : SysEnv) : FStep :=
  let p := periodic_stat_check cfg l env
  if p.2 then
    match logfile_reopenH p.1 env with
    | .keep l2 r => if r = 0 then flushStepH2 l2 env else .fail l2
    | .drop fp _ => .failGone fp
    | .aborted => .aborted
  else flushStepH2 p.1 env

/-- `logfflush(l)` with a specific handle: returns the `fflush` result on
success, -1 on a drain or reopen failure. -/
def logfflush1 (cfg : LogCfg) (reg : List Log) (i : Nat) (env : SysEnv) : RRes :=
  liftReg (fun l =>
    match flushStepH cfg l env with
    | .ok l' ff => .keep l' (if ff then 0 else -1)
    | .fail l' => .keep l' (-1)
    | .failGone fp => .drop fp (-1)
    | .aborted => .aborted) reg i

/-- Result of the flush-all loop. -/
inductive FlushAllRes where
  | ok (reg : List Log) (ret : Int)
  | aborted
  deriving DecidableEq

/-- The `for` loop of `logfflush(NULL)`: handles are processed in registry
order; a reopen or drain failure returns -1 immediately, leaving the
remaining handles untouched; `fflush` results are OR-accumulated in `r`
(0 or -1, mirroring `r |= fflush(...)` with `EOF = -1`).  The syscall
environment is supplied per handle id. -/
def logfflushAllGo (cfg : LogCfg) (envf : Nat → SysEnv) :
    List Log → Int → FlushAllRes
  | [], r => .ok [] r
  | l :: rest, r =>
    match flushStepH cfg l (envf l.id) with
    | .ok l' ff =>
      match logfflushAllGo cfg envf rest (if ff then r else -1) with
      | .ok reg' r' => .ok (l' :: reg') r'
      | .aborted => .aborted
    | .fail l' => .ok (l' :: rest) (-1)
    | .failGone _ => .ok rest (-1)
    | .aborted => .aborted

/-- `logfflush(NULL)`: flush every registered handle. -/
def logfflushAll (cfg : LogCfg) (envf : Nat → SysEnv) (reg : List Log) :
    FlushAllRes :=
  logfflushAllGo cfg envf reg 0

/-- The lookup-and-increment path of `logfopen` with no stream supplied:
find the first handle with the given name, bump its `opencount`, and
return its id; `none` models the NULL return (NotFound). -/
def incFirst : List Log → String → Option (List Log × Nat)
  | [], _ => none
  | l :: rest, name =>
    if l.name = name then
      some ({ l with opencount := l.opencount + 1 } :: rest, l.id)
    else
      match incFirst rest name with
      | some (reg', i) => some (l :: reg', i)
      | none => none

/-- `lookup_logfile`: id of the first handle with the given name. -/
def lookup_logfile : List Log → String → Option Nat
  | [], _ => none
  | l :: rest, name =>
    if l.name = name then some l.id else lookup_logfile rest name

/-- `logfopen`.  With no stream, join the existing handle or fail.  With a
stream, always push a fresh handle (fresh `id` models the new allocation):
`opencount = 1`, counters zero, buffer unallocated, countdown at the
interval, cached stat obtained by `changed_logfile` on the zeroed stat.
`allocOk = false` models a failing `calloc`/`SaveStr` (NULL return, no
registry change). -/
def logfopen (cfg : LogCfg) (reg : List Log) (name : String)
    (fpOpt : Option Stream) (freshId : Nat) (statRes : Option Stat)
    (allocOk : Bool) : Option (List Log × Nat) :=
  match fpOpt with
  | none => incFirst reg name
  | some fp =>
    if allocOk then
      some ({ id := freshId, name := name, opencount := 1, writecount := 0,
              flushcount := 0, buffer := none,
              st := changed_logfile statZero statRes,
              stat_countdown := cfg.statInterval, fp := fp } :: reg, freshId)
    else none

/-- A consumer-level operation on one log name, after the initial
open-with-stream: join (open with no stream) or close. -/
inductive LogOp where
  | join
  | close
  deriving DecidableEq

/-- Number of closes in a trace. -/
def closesOf : List LogOp → Nat
  | [] => 0
  | .close :: ops => closesOf ops + 1
  | .join :: ops => closesOf ops

/-- Number of joins in a trace. -/
def joinsOf : List LogOp → Nat
  | [] => 0
  | .join :: ops => joinsOf ops + 1
  | .close :: ops => joinsOf ops

/-- Run a trace of joins and closes against the registry, joining by name
and closing the handle with the given id; `none` when an operation fails
(join of an unregistered name, or close of an unregistered handle). -/
def runOps (name : String) (i : Nat) (clOk : Bool) :
    List LogOp → List Log → Option (List Log)
  | [], reg => some reg
  | .join :: ops, reg =>
    match incFirst reg name with
    | some (reg', _) => runOps name i clOk ops reg'
    | none => none
  | .close :: ops, reg =>
    match logfclose reg i clOk with
    | .ok reg' _ => runOps name i clOk ops reg'
    | _ => none

/-- Iterate `logfwriteH` over a list of chunks, requiring every call to
succeed with return value 1. -/
def writeSeq (cfg : LogCfg) (env : SysEnv) : List (List Nat) → Log → Option Log
  | [], l => some l
  | c :: cs, l =>
    match logfwriteH cfg c env l with
    | .keep l' r => if r = 1 then writeSeq cfg env cs l' else none
    | _ => none

/-! ### Helper lemmas -/

lemma update_buffer_eq_self (l : Log) (b : Option (List Nat)) (h : l.buffer = b) :
    ({ l with buffer := b } : Log) = l := by
  cases l; cases h; rfl

lemma update_opencount_eq_self (l : Log) (k : Int) (h : l.opencount = k) :
    ({ l with opencount := k } : Log) = l := by
  cases l; cases h; rfl

@[simp] lemma psc_buffer (cfg : LogCfg) (l : Log) (env : SysEnv) :
    ((periodic_stat_check cfg l env).1).buffer = l.buffer := by
  simp only [periodic_stat_check]; split_ifs <;> rfl

@[simp] lemma psc_fp (cfg : LogCfg) (l : Log) (env : SysEnv) :
    ((periodic_stat_check cfg l env).1).fp = l.fp := by
  simp only [periodic_stat_check]; split_ifs <;> rfl

@[simp] lemma psc_opencount (cfg : LogCfg) (l : Log) (env : SysEnv) :
    ((periodic_stat_check cfg l env).1).opencount = l.opencount := by
  simp only [periodic_stat_check]; split_ifs <;> rfl

@[simp] lemma psc_writecount (cfg : LogCfg) (l : Log) (env : SysEnv) :
    ((periodic_stat_check cfg l env).1).writecount = l.writecount := by
  simp only [periodic_stat_check]; split_ifs <;> rfl

@[simp] lemma psc_flushcount (cfg : LogCfg) (l : Log) (env : SysEnv) :
    ((periodic_stat_check cfg l env).1).flushcount = l.flushcount := by
  simp only [periodic_stat_check]; split_ifs <;> rfl

@[simp] lemma psc_name (cfg : LogCfg) (l : Log) (env : SysEnv) :
    ((periodic_stat_check cfg l env).1).name = l.name := by
  simp only [periodic_stat_check]; split_ifs <;> rfl

@[simp] lemma psc_id (cfg : LogCfg) (l : Log) (env : SysEnv) :
    ((periodic_stat_check cfg l env).1).id = l.id := by
  simp only [periodic_stat_check]; split_ifs <;> rfl

lemma fwriteS_fail (fp : Stream) (bytes : List Nat) (ok : Bool)
    (h : bytes = [] ∨ fp.closed = true ∨ ok = false) :
    fwriteS fp bytes ok = (fp, false) := by
  simp only [fwriteS, if_pos h]

lemma fwriteS_success (fp : Stream) (bytes : List Nat)
    (h : bytes ≠ []) (hc : fp.closed = false) :
    fwriteS fp bytes true = ({ fp with content := fp.content ++ bytes }, true) := by
  simp [fwriteS, h, hc]

lemma flush_log_buffer_none (l : Log) (ok : Bool) (h : l.buffer = none) :
    flush_log_buffer l ok = (l, 0) := by
  simp [flush_log_buffer, h]

lemma flush_log_buffer_nil (l : Log) (ok : Bool) (h : l.buffer = some []) :
    flush_log_buffer l ok = (l, 0) := by
  simp [flush_log_buffer, h]

lemma flush_log_buffer_drain (l : Log) (bs : List Nat)
    (h : l.buffer = some bs) (hne : bs ≠ []) (hc : l.fp.closed = false) :
    flush_log_buffer l true =
      ({ l with fp := { l.fp with content := l.fp.content ++ bs },
                buffer := some [], writecount := l.writecount + 1 }, 0) := by
  simp [flush_log_buffer, h, hne, fwriteS_success l.fp bs hne hc]

lemma flush_log_buffer_uniform (l : Log) (bs : List Nat)
    (h : l.buffer = some bs) (hc : l.fp.closed = false) :
    ∃ wc', flush_log_buffer l true =
      ({ l with fp := { l.fp with content := l.fp.content ++ bs },
                buffer := some [], writecount := wc' }, 0) ∧
      l.writecount ≤ wc' ∧ (bs ≠ [] → l.writecount < wc') := by
  by_cases hne : bs = []
  · subst hne
    refine ⟨l.writecount, ?_, le_refl _, by simp⟩
    rw [flush_log_buffer_nil l true h]
    obtain ⟨i, nm, oc, wc, fc, bf, st, cd, fp⟩ := l
    obtain ⟨cl, ct⟩ := fp
    simp only [Log.mk.injEq] at h ⊢
    simp_all
  · exact ⟨l.writecount + 1, flush_log_buffer_drain l bs h hne hc,
      Nat.le_succ _, fun _ => Nat.lt_succ_self _⟩

/-! ### C1: rotation check boundary conditions -/

/-- C1: for a cached stat with a valid device/inode pair, `stolen_logfile`
reports theft exactly when the fresh `fstat` failed, the link count is
zero, the size shrank, the mtime changed, or the ctime changed and the
change is not the tolerated delayed-write artifact (tolerated only when
the new mtime equals the new ctime and the new ctime is no earlier than
the cached ctime); with the cached device and inode both zero it reports
not stolen.  The fresh stat, when the `fstat` succeeds, is assumed to
carry a valid (not all-zero) device/inode pair, as a real `fstat` of an
open descriptor does. -/
theorem stolen_logfile_rotation_spec (old : Stat) (fres : Option Stat)
    (hfresh : ∀ f, fres = some f → ¬(f.st_dev = 0 ∧ f.st_ino = 0)) :
    ((old.st_dev = 0 ∧ old.st_ino = 0) → (stolen_logfile old fres).1 = false) ∧
    (¬(old.st_dev = 0 ∧ old.st_ino = 0) →
      ((stolen_logfile old fres).1 = true ↔
        fres = none ∨
        ∃ f, fres = some f ∧
          (f.st_nlink = 0 ∨ f.st_size < old.st_size ∨
           f.st_mtime ≠ old.st_mtime ∨
           (f.st_ctime ≠ old.st_ctime ∧
            ¬(f.st_mtime = f.st_ctime ∧ old.st_ctime ≤ f.st_ctime))))) := by
  constructor
  · intro h
    simp [stolen_logfile, h]
  · intro h
    cases fres with
    | none =>
      simp [stolen_logfile, stolenStat, h]
    | some f =>
      have hf : ¬(f.st_dev = 0 ∧ f.st_ino = 0) := hfresh f rfl
      have key : ((f.st_dev = 0 ∧ f.st_ino = 0) ∨ f.st_nlink = 0 ∨
          f.st_size < old.st_size ∨ f.st_mtime ≠ old.st_mtime ∨
          (f.st_ctime ≠ old.st_ctime ∧
           ¬(f.st_mtime = f.st_ctime ∧ old.st_ctime < f.st_ctime))) ↔
          (f.st_nlink = 0 ∨ f.st_size < old.st_size ∨
           f.st_mtime ≠ old.st_mtime ∨
           (f.st_ctime ≠ old.st_ctime ∧
            ¬(f.st_mtime = f.st_ctime ∧ old.st_ctime ≤ f.st_ctime))) := by
        constructor
        · rintro (hdi | h1 | h2 | h3 | ⟨h4, h5⟩)
          · exact absurd hdi hf
          · exact Or.inl h1
          · exact Or.inr (Or.inl h2)
          · exact Or.inr (Or.inr (Or.inl h3))
          · refine Or.inr (Or.inr (Or.inr ⟨h4, fun he => h5 ⟨he.1, ?_⟩⟩))
            have := he.2
            omega
        · rintro (h1 | h2 | h3 | ⟨h4, h5⟩)
          · exact Or.inr (Or.inl h1)
          · exact Or.inr (Or.inr (Or.inl h2))
          · exact Or.inr (Or.inr (Or.inr (Or.inl h3)))
          · refine Or.inr (Or.inr (Or.inr (Or.inr ⟨h4, fun he => h5 ⟨he.1, le_of_lt he.2⟩⟩)))
      simp only [stolen_logfile, stolenStat]
      rw [if_neg h]
      split_ifs with hc
      · constructor
        · intro _
          exact Or.inr ⟨f, rfl, key.mp hc⟩
        · intro _
          rfl
      · constructor
        · intro hfalse
          exact hfalse.elim
        · rintro (hn | ⟨f', hf', hd⟩)
          · exact absurd hn (by simp)
          · cases hf'
            exact absurd (key.mpr hd) hc

/-- Witness for C1: a changed mtime on a validly cached handle is theft. -/
theorem stolen_logfile_rotation_spec_witness :
    (stolen_logfile ⟨1, 2, 1, 10, 5, 5⟩ (some ⟨1, 2, 1, 10, 6, 5⟩)).1 = true :=
  ((stolen_logfile_rotation_spec ⟨1, 2, 1, 10, 5, 5⟩ (some ⟨1, 2, 1, 10, 6, 5⟩)
      (fun f hf => by cases hf; decide)).2 (by decide)).mpr
    (Or.inr ⟨⟨1, 2, 1, 10, 6, 5⟩, rfl, by decide⟩)

/-! ### C2: buffered fast path and coalescing -/

lemma logfwriteH_fit (cfg : LogCfg) (buf : List Nat) (env : SysEnv) (l : Log)
    (bs : List Nat) (hbuf : l.buffer = some bs)
    (hfit : bs.length + buf.length ≤ cfg.bufSize) :
    logfwriteH cfg buf env l = .keep { l with buffer := some (bs ++ buf) } 1 := by
  simp [logfwriteH, hbuf, logfwriteH2, hfit]

lemma writeSeq_fits (cfg : LogCfg) (env : SysEnv) :
    ∀ (chunks : List (List Nat)) (l : Log) (bs : List Nat),
      l.buffer = some bs →
      bs.length + (chunks.map List.length).sum ≤ cfg.bufSize →
      writeSeq cfg env chunks l =
        some { l with buffer := some (bs ++ chunks.flatten) } := by
  intro chunks
  induction chunks with
  | nil =>
    intro l bs hbuf _
    simp only [writeSeq, List.flatten_nil, List.append_nil, Option.some.injEq]
    exact (update_buffer_eq_self l (some bs) hbuf).symm
  | cons c cs ih =>
    intro l bs hbuf hsum
    simp only [List.map_cons, List.sum_cons] at hsum
    have hfit : bs.length + c.length ≤ cfg.bufSize := by omega
    have hstep := logfwriteH_fit cfg c env l bs hbuf hfit
    simp only [writeSeq, hstep]
    have hrec := ih { l with buffer := some (bs ++ c) } (bs ++ c) rfl
      (by simp only [List.length_append]; omega)
    simp only [if_true, hrec]
    simp [List.append_assoc]

/-- C2: with an allocated buffer, a fitting chunk is appended to the
buffer and the call returns 1 with no effect on the stream or anything
else (exact record equality); a sequence of chunks whose total size fits
the capacity is absorbed into the buffer with zero underlying writes; the
next drain delivers exactly the in-order concatenation to the backing
file. -/
theorem logfwrite_buffer_coalescing (cfg : LogCfg) (env : SysEnv) (l : Log)
    (bs buf : List Nat) (chunks : List (List Nat))
    (hbuf : l.buffer = some bs)
    (hfit : bs.length + buf.length ≤ cfg.bufSize)
    (hsum : bs.length + (chunks.map List.length).sum ≤ cfg.bufSize)
    (hop : l.fp.closed = false)
    (hne : bs ++ chunks.flatten ≠ []) :
    logfwriteH cfg buf env l = .keep { l with buffer := some (bs ++ buf) } 1 ∧
    writeSeq cfg env chunks l =
      some { l with buffer := some (bs ++ chunks.flatten) } ∧
    flush_log_buffer { l with buffer := some (bs ++ chunks.flatten) } true =
      ({ l with buffer := some [],
                fp := { l.fp with content := l.fp.content ++ (bs ++ chunks.flatten) },
                writecount := l.writecount + 1 }, 0) := by
  refine ⟨logfwriteH_fit cfg buf env l bs hbuf hfit,
          writeSeq_fits cfg env chunks l bs hbuf hsum, ?_⟩
  exact flush_log_buffer_drain { l with buffer := some (bs ++ chunks.flatten) }
    (bs ++ chunks.flatten) rfl hne hop

/-- Witness for C2 at a concrete handle, chunk and chunk sequence. -/
theorem logfwrite_buffer_coalescing_witness :
    logfwriteH ⟨8, 4⟩ [2] ⟨none, none, true, true, none, true, true, true, true, true⟩
        ⟨0, "w", 1, 0, 0, some [1], statZero, 4, ⟨false, []⟩⟩ =
      .keep ⟨0, "w", 1, 0, 0, some [1, 2], statZero, 4, ⟨false, []⟩⟩ 1 ∧
    writeSeq ⟨8, 4⟩ ⟨none, none, true, true, none, true, true, true, true, true⟩
        [[2], [3, 4]] ⟨0, "w", 1, 0, 0, some [1], statZero, 4, ⟨false, []⟩⟩ =
      some ⟨0, "w", 1, 0, 0, some [1, 2, 3, 4], statZero, 4, ⟨false, []⟩⟩ ∧
    flush_log_buffer ⟨0, "w", 1, 0, 0, some [1, 2, 3, 4], statZero, 4, ⟨false, []⟩⟩
        true =
      (⟨0, "w", 1, 1, 0, some [], statZero, 4, ⟨false, [1, 2, 3, 4]⟩⟩, 0) := by
  have h := logfwrite_buffer_coalescing ⟨8, 4⟩
    ⟨none, none, true, true, none, true, true, true, true, true⟩
    ⟨0, "w", 1, 0, 0, some [1], statZero, 4, ⟨false, []⟩⟩
    [1] [2] [[2], [3, 4]] rfl (by decide) (by decide) rfl (by decide)
  exact h

/-! ### C3: overflow path -/

lemma logfwriteH3_spec (cfg : LogCfg) (buf : List Nat) (env : SysEnv)
    (l : Log) (ds : List Nat)
    (hbuf : l.buffer = some ds) (hop : l.fp.closed = false)
    (hw : env.writeOk = true) (hd : env.directOk = true) :
    ∃ l', logfwriteH3 cfg buf env l = .keep l' 1 ∧
      l'.fp.content ++ l'.buffer.getD [] = l.fp.content ++ ds ++ buf ∧
      (buf.length ≤ cfg.bufSize →
        l'.buffer = some buf ∧ l'.fp.content = l.fp.content ++ ds ∧
        l.writecount ≤ l'.writecount) ∧
      (cfg.bufSize < buf.length →
        l'.buffer = some [] ∧ l'.fp.content = l.fp.content ++ ds ++ buf ∧
        l.writecount < l'.writecount) := by
  obtain ⟨wc', hfl, hwc, hwcs⟩ := flush_log_buffer_uniform l ds hbuf hop
  rw [← hw] at hfl
  by_cases hfit : buf.length ≤ cfg.bufSize
  · refine ⟨{ l with fp := { l.fp with content := l.fp.content ++ ds },
                     buffer := some buf, writecount := wc' }, ?_, ?_, ?_, ?_⟩
    · simp only [logfwriteH3, hfl]
      norm_num [hfit]
    · simp [List.append_assoc]
    · intro _
      exact ⟨rfl, rfl, hwc⟩
    · intro hbig
      omega
  · push_neg at hfit
    have hbne : buf ≠ [] := by
      intro hnil
      rw [hnil] at hfit
      simp at hfit
    refine ⟨{ l with fp := { l.fp with content := (l.fp.content ++ ds) ++ buf },
                     buffer := some [], writecount := wc' + 1, flushcount := 0 },
            ?_, ?_, ?_, ?_⟩
    · simp only [logfwriteH3, hfl]
      norm_num [not_le.mpr hfit, hd]
      rw [fwriteS_success { closed := l.fp.closed, content := l.fp.content ++ ds }
            buf hbne hop]
      simp [List.append_assoc]
    · simp [List.append_assoc]
    · intro hle
      omega
    · intro _
      exact ⟨rfl, by simp [List.append_assoc], Nat.lt_succ_of_le hwc⟩

lemma logfwriteH_overflow_red (cfg : LogCfg) (buf : List Nat) (env : SysEnv)
    (l : Log) (bs : List Nat)
    (hbuf : l.buffer = some bs) (hover : cfg.bufSize < bs.length + buf.length)
    (hnt : (periodic_stat_check cfg l env).2 = false) :
    logfwriteH cfg buf env l =
      logfwriteH3 cfg buf env (periodic_stat_check cfg l env).1 := by
  simp only [logfwriteH, hbuf, logfwriteH2, Option.getD_some]
  rw [if_neg (by omega)]
  simp [hnt]

/-- C3: on an overflowing write where the periodic check reports no theft
and the drain and direct write succeed, the call returns 1; the chunk is
stored in the emptied buffer when it fits, otherwise written directly to
the stream and counted as a completed write; on either path the stream
content followed by the pending buffer is the order-preserving
concatenation of the old content, the previously buffered bytes, and the
new chunk. -/
theorem logfwrite_overflow_order (cfg : LogCfg) (env : SysEnv) (l : Log)
    (bs buf : List Nat)
    (hbuf : l.buffer = some bs)
    (hover : cfg.bufSize < bs.length + buf.length)
    (hnt : (periodic_stat_check cfg l env).2 = false)
    (hop : l.fp.closed = false)
    (hw : env.writeOk = true) (hd : env.directOk = true) :
    ∃ l', logfwriteH cfg buf env l = .keep l' 1 ∧
      l'.fp.content ++ l'.buffer.getD [] = l.fp.content ++ bs ++ buf ∧
      (buf.length ≤ cfg.bufSize →
        l'.buffer = some buf ∧ l'.fp.content = l.fp.content ++ bs) ∧
      (cfg.bufSize < buf.length →
        l'.buffer = some [] ∧ l'.fp.content = l.fp.content ++ bs ++ buf ∧
        l.writecount < l'.writecount) := by
  have hred := logfwriteH_overflow_red cfg buf env l bs hbuf hover hnt
  have hb1 : ((periodic_stat_check cfg l env).1).buffer = some bs := by
    rw [psc_buffer, hbuf]
  have hop1 : ((periodic_stat_check cfg l env).1).fp.closed = false := by
    rw [psc_fp]
    exact hop
  obtain ⟨l', hl', hcat, hfit, hbig⟩ :=
    logfwriteH3_spec cfg buf env (periodic_stat_check cfg l env).1 bs hb1 hop1 hw hd
  rw [psc_fp] at hcat hfit hbig
  rw [psc_writecount] at hfit hbig
  refine ⟨l', by rw [hred]; exact hl', hcat, fun h => ⟨(hfit h).1, (hfit h).2.1⟩, hbig⟩

/-- Witness for C3 on the direct-write path: a 3-byte chunk against a
2-byte buffer holding one byte. -/
theorem logfwrite_overflow_order_witness :
    ∃ l', logfwriteH ⟨2, 4⟩ [7, 8, 9]
        ⟨none, none, true, true, none, true, true, true, true, true⟩
        ⟨0, "o", 1, 0, 0, some [1], statZero, 4, ⟨false, [5]⟩⟩ = .keep l' 1 ∧
      l'.fp.content ++ l'.buffer.getD [] = [5] ++ [1] ++ [7, 8, 9] ∧
      ([7, 8, 9].length ≤ (2 : Nat) →
        l'.buffer = some [7, 8, 9] ∧ l'.fp.content = [5] ++ [1]) ∧
      ((2 : Nat) < [7, 8, 9].length →
        l'.buffer = some [] ∧ l'.fp.content = [5] ++ [1] ++ [7, 8, 9] ∧
        (0 : Nat) < l'.writecount) :=
  logfwrite_overflow_order ⟨2, 4⟩
    ⟨none, none, true, true, none, true, true, true, true, true⟩
    ⟨0, "o", 1, 0, 0, some [1], statZero, 4, ⟨false, [5]⟩⟩
    [1] [7, 8, 9] rfl (by decide) (by decide) rfl rfl rfl

/-! ### C4: logfopen -/

lemma incFirst_not_found :
    ∀ (reg : List Log) (name : String),
      (∀ l ∈ reg, l.name ≠ name) → incFirst reg name = none := by
  intro reg name h
  induction reg with
  | nil => rfl
  | cons l rest ih =>
    have hl : l.name ≠ name := h l (List.mem_cons_self l rest)
    simp only [incFirst, if_neg hl]
    rw [ih (fun x hx => h x (List.mem_cons_of_mem l hx))]

lemma incFirst_found :
    ∀ (pre : List Log) (h : Log) (post : List Log) (name : String),
      (∀ l ∈ pre, l.name ≠ name) → h.name = name →
      incFirst (pre ++ h :: post) name =
        some (pre ++ { h with opencount := h.opencount + 1 } :: post, h.id) := by
  intro pre
  induction pre with
  | nil =>
    intro h post name _ hn
    simp only [List.nil_append, incFirst, if_pos hn]
  | cons p rest ih =>
    intro h post name hpre hn
    have hp : p.name ≠ name := hpre p (List.mem_cons_self p rest)
    simp only [List.cons_append, incFirst, if_neg hp, List.append_eq]
    rw [ih h post name (fun x hx => hpre x (List.mem_cons_of_mem p hx)) hn]

/-- C4: opening with no stream joins the first registered handle of that
name (incrementing its `opencount`) and fails with NULL (`NotFound`) when
no handle of that name is registered; opening with a stream always pushes
a brand-new handle — even when a handle of the same name exists — with
`opencount = 1`, no buffer, the countdown at the check interval, and the
cached stat produced by running `changed_logfile` on the zeroed stat
against the fresh stream's `fstat`. -/
theorem logfopen_spec (cfg : LogCfg) (name : String) (fp : Stream)
    (freshId : Nat) (statRes : Option Stat) (allocOk : Bool) :
    (∀ reg : List Log, (∀ l ∈ reg, l.name ≠ name) →
      logfopen cfg reg name none freshId statRes allocOk = none) ∧
    (∀ (pre : List Log) (h : Log) (post : List Log),
      (∀ l ∈ pre, l.name ≠ name) → h.name = name →
      logfopen cfg (pre ++ h :: post) name none freshId statRes allocOk =
        some (pre ++ { h with opencount := h.opencount + 1 } :: post, h.id)) ∧
    (∀ reg : List Log,
      logfopen cfg reg name (some fp) freshId statRes true =
        some ({ id := freshId, name := name, opencount := 1, writecount := 0,
                flushcount := 0, buffer := none,
                st := changed_logfile statZero statRes,
                stat_countdown := cfg.statInterval, fp := fp } :: reg, freshId)) := by
  refine ⟨?_, ?_, ?_⟩
  · intro reg h
    simp only [logfopen]
    exact incFirst_not_found reg name h
  · intro pre h post hpre hn
    simp only [logfopen]
    exact incFirst_found pre h post name hpre hn
  · intro reg
    simp [logfopen]

/-- Witness for C4: join an existing single-handle registry. -/
theorem logfopen_spec_witness :
    logfopen ⟨8, 4⟩ [⟨3, "s", 1, 0, 0, none, statZero, 4, ⟨false, []⟩⟩] "s" none
        9 none true =
      some ([⟨3, "s", 2, 0, 0, none, statZero, 4, ⟨false, []⟩⟩], 3) := by
  have h := (logfopen_spec ⟨8, 4⟩ "s" ⟨false, []⟩ 9 none true).2.1
    [] ⟨3, "s", 1, 0, 0, none, statZero, 4, ⟨false, []⟩⟩ []
    (by intro l hl; cases hl) rfl
  exact h

/-! ### C5: reference counting -/

lemma liftReg_not_registered (f : Log → HRes) :
    ∀ (reg : List Log) (i : Nat), (∀ l ∈ reg, l.id ≠ i) →
      liftReg f reg i = .notRegistered := by
  intro reg i h
  induction reg with
  | nil => rfl
  | cons l rest ih =>
    have hl : l.id ≠ i := h l (List.mem_cons_self l rest)
    simp only [liftReg, if_neg hl]
    rw [ih (fun x hx => h x (List.mem_cons_of_mem l hx))]

lemma logfclose_not_registered (reg : List Log) (i : Nat) (clOk : Bool)
    (h : ∀ l ∈ reg, l.id ≠ i) : logfclose reg i clOk = .notRegistered :=
  liftReg_not_registered _ reg i h

lemma incFirst_single (h : Log) (name : String) (hn : h.name = name) :
    incFirst [h] name = some ([{ h with opencount := h.opencount + 1 }], h.id) := by
  simp [incFirst, hn]

lemma logfclose_single_stay (h : Log) (clOk : Bool) (hgt : 1 < h.opencount) :
    logfclose [h] h.id clOk = .ok [{ h with opencount := h.opencount - 1 }] 0 := by
  simp [logfclose, liftReg, logfcloseH, show h.opencount - 1 > 0 from by omega]

lemma logfclose_single_gone (h : Log) (clOk : Bool) (heq : h.opencount = 1) :
    logfclose [h] h.id clOk = .ok [] 0 := by
  simp [logfclose, liftReg, logfcloseH, heq]

lemma update_opencount_congr (h : Log) (a b : Int) (hab : a = b) :
    ({ h with opencount := a } : Log) = { h with opencount := b } := by rw [hab]

lemma runOps_singleton (name : String) (clOk : Bool) :
    ∀ (ops : List LogOp) (h : Log), h.name = name → 0 < h.opencount →
      (∀ p q, ops = p ++ q → q ≠ [] →
        (closesOf p : Int) < h.opencount + joinsOf p) →
      (((closesOf ops : Int) < h.opencount + joinsOf ops →
        runOps name h.id clOk ops [h] =
          some [{ h with opencount :=
            h.opencount + joinsOf ops - closesOf ops }]) ∧
       (¬((closesOf ops : Int) < h.opencount + joinsOf ops) →
        runOps name h.id clOk ops [h] = some [])) := by
  intro ops
  induction ops with
  | nil =>
    intro h hn hpos _
    constructor
    · intro _
      simp only [runOps, closesOf, joinsOf, Nat.cast_zero, add_zero, sub_zero,
        update_opencount_eq_self h h.opencount rfl]
    · intro hc
      exfalso
      simp only [closesOf, joinsOf, Nat.cast_zero, add_zero] at hc
      omega
  | cons op rest ih =>
    intro h hn hpos hvalid
    have hvalid' : ∀ p q, rest = p ++ q → q ≠ [] →
        (closesOf p : Int) <
          ({ h with opencount := h.opencount + (if op = LogOp.join then 1 else -1) } : Log).opencount
            + joinsOf p := by
      intro p q hpq hq
      have := hvalid (op :: p) q (by rw [hpq]; rfl) hq
      cases op <;> simp only [closesOf, joinsOf] at this ⊢ <;> push_cast at this ⊢ <;> omega
    cases op with
    | join =>
      have hrec := ih { h with opencount := h.opencount + 1 } hn
        (by show 0 < h.opencount + 1; omega)
        (by
          intro p q hpq hq
          have := hvalid' p q hpq hq
          simpa using this)
      constructor
      · intro hc
        have hc' : (closesOf rest : Int) <
            ({ h with opencount := h.opencount + 1 } : Log).opencount + joinsOf rest := by
          show (closesOf rest : Int) < h.opencount + 1 + joinsOf rest
          simp only [closesOf, joinsOf] at hc
          push_cast at hc ⊢
          omega
        have hstep := incFirst_single h name hn
        simp only [runOps, hstep]
        rw [(hrec.1 hc')]
        refine congrArg some (congrArg (fun x => [x]) ?_)
        have harith : (({ h with opencount := h.opencount + 1 } : Log).opencount
              + (joinsOf rest : Int) - closesOf rest) =
            h.opencount + (joinsOf (LogOp.join :: rest) : Int)
              - closesOf (LogOp.join :: rest) := by
          simp only [closesOf, joinsOf]
          push_cast
          omega
        rw [update_opencount_congr _ _ _ harith]
      · intro hc
        have hc' : ¬((closesOf rest : Int) <
            ({ h with opencount := h.opencount + 1 } : Log).opencount + joinsOf rest) := by
          show ¬((closesOf rest : Int) < h.opencount + 1 + joinsOf rest)
          simp only [closesOf, joinsOf] at hc
          push_cast at hc ⊢
          omega
        have hstep := incFirst_single h name hn
        simp only [runOps, hstep]
        exact hrec.2 hc'
    | close =>
      by_cases hgt : 1 < h.opencount
      · have hrec := ih { h with opencount := h.opencount - 1 } hn
          (by show 0 < h.opencount - 1; omega)
          (by
            intro p q hpq hq
            have := hvalid' p q hpq hq
            simpa using this)
        have hstep := logfclose_single_stay h clOk hgt
        constructor
        · intro hc
          have hc' : (closesOf rest : Int) <
              ({ h with opencount := h.opencount - 1 } : Log).opencount + joinsOf rest := by
            show (closesOf rest : Int) < h.opencount - 1 + joinsOf rest
            simp only [closesOf, joinsOf] at hc
            push_cast at hc ⊢
            omega
          simp only [runOps, hstep]
          rw [(hrec.1 hc')]
          refine congrArg some (congrArg (fun x => [x]) ?_)
          have harith : (({ h with opencount := h.opencount - 1 } : Log).opencount
                + (joinsOf rest : Int) - closesOf rest) =
              h.opencount + (joinsOf (LogOp.close :: rest) : Int)
                - closesOf (LogOp.close :: rest) := by
            simp only [closesOf, joinsOf]
            push_cast
            omega
          rw [update_opencount_congr _ _ _ harith]
        · intro hc
          have hc' : ¬((closesOf rest : Int) <
              ({ h with opencount := h.opencount - 1 } : Log).opencount + joinsOf rest) := by
            show ¬((closesOf rest : Int) < h.opencount - 1 + joinsOf rest)
            simp only [closesOf, joinsOf] at hc
            push_cast at hc ⊢
            omega
          simp only [runOps, hstep]
          exact hrec.2 hc'
      · have h1 : h.opencount = 1 := by omega
        have hstep := logfclose_single_gone h clOk h1
        cases rest with
        | nil =>
          constructor
          · intro hc
            exfalso
            simp only [closesOf, joinsOf] at hc
            push_cast at hc
            omega
          · intro _
            simp only [runOps, hstep]
        | cons r rest' =>
          exfalso
          have := hvalid [LogOp.close] (r :: rest') rfl (by simp)
          simp only [closesOf, joinsOf] at this
          push_cast at this
          omega

/-- C5 (amended): starting from the handle created by an open-with-stream,
for any trace of joins and closes on its name in which every proper prefix
has strictly more opens (the initial one plus the joins) than closes, the
run succeeds and the handle remains registered iff the whole trace has
more opens than closes, with `opencount` equal to their difference;
and a close with no matching open — a close on a registry that no longer
holds the handle — fails with the -1 not-registered return (it is an
error, not a silent no-op; the defensive `abort()` guards only a count
going negative while still registered, which no open/close trace can
reach). -/
theorem refcount_invariant (cfg : LogCfg) (name : String) (clOk : Bool)
    (fp : Stream) (freshId : Nat) (statRes : Option Stat) (ops : List LogOp)
    (hvalid : ∀ n, n < ops.length →
      (closesOf (ops.take n) : Int) < 1 + joinsOf (ops.take n)) :
    (∀ (reg : List Log) (i : Nat), (∀ l ∈ reg, l.id ≠ i) →
      logfclose reg i clOk = .notRegistered) ∧
    ∃ reg₂, runOps name freshId clOk ops
        [{ id := freshId, name := name, opencount := 1, writecount := 0,
           flushcount := 0, buffer := none,
           st := changed_logfile statZero statRes,
           stat_countdown := cfg.statInterval, fp := fp }] = some reg₂ ∧
      (reg₂ ≠ [] ↔ (closesOf ops : Int) < 1 + joinsOf ops) ∧
      ∀ l ∈ reg₂, l.name = name ∧
        l.opencount = 1 + (joinsOf ops : Int) - closesOf ops := by
  refine ⟨fun reg i h => logfclose_not_registered reg i clOk h, ?_⟩
  have happ : ∀ p q, ops = p ++ q → q ≠ [] →
      (closesOf p : Int) <
        ({ id := freshId, name := name, opencount := 1, writecount := 0,
           flushcount := 0, buffer := none,
           st := changed_logfile statZero statRes,
           stat_countdown := cfg.statInterval, fp := fp } : Log).opencount
          + joinsOf p := by
    intro p q hpq hq
    have hlt : p.length < ops.length := by
      rw [hpq, List.length_append]
      have := List.length_pos.mpr hq
      omega
    have htake : ops.take p.length = p := by
      rw [hpq]
      exact List.take_left p q
    have := hvalid p.length hlt
    rw [htake] at this
    exact this
  obtain ⟨h1, h2⟩ := runOps_singleton name clOk ops
    { id := freshId, name := name, opencount := 1, writecount := 0,
      flushcount := 0, buffer := none, st := changed_logfile statZero statRes,
      stat_countdown := cfg.statInterval, fp := fp }
    rfl (by norm_num) happ
  by_cases hc : (closesOf ops : Int) < 1 + joinsOf ops
  · refine ⟨_, h1 hc, ?_, ?_⟩
    · simp only [ne_eq, List.cons_ne_self]
      constructor
      · intro _
        exact hc
      · intro _
        simp
    · intro l hl
      rw [List.mem_singleton] at hl
      subst hl
      exact ⟨rfl, rfl⟩
  · refine ⟨[], h2 hc, ?_, ?_⟩
    · constructor
      · intro habs
        exact absurd rfl habs
      · intro hcc
        exact absurd hcc hc
    · intro l hl
      cases hl

/-- Witness for C5: open, join, close, close removes the handle. -/
theorem refcount_invariant_witness :
    ∃ reg₂, runOps "r" 0 true [LogOp.join, LogOp.close, LogOp.close]
        [{ id := 0, name := "r", opencount := 1, writecount := 0,
           flushcount := 0, buffer := none,
           st := changed_logfile statZero none,
           stat_countdown := 4, fp := ⟨false, []⟩ }] = some reg₂ ∧
      (reg₂ ≠ [] ↔
        (closesOf [LogOp.join, LogOp.close, LogOp.close] : Int) <
          1 + joinsOf [LogOp.join, LogOp.close, LogOp.close]) ∧
      ∀ l ∈ reg₂, l.name = "r" ∧
        l.opencount = 1 + (joinsOf [LogOp.join, LogOp.close, LogOp.close] : Int)
          - closesOf [LogOp.join, LogOp.close, LogOp.close] :=
  (refcount_invariant ⟨8, 4⟩ "r" true ⟨false, []⟩ 0 none
    [LogOp.join, LogOp.close, LogOp.close] (by decide)).2

/-- Counterexample for C5 as stated: a close beyond the matching number of
opens takes the not-registered error return (-1), not the defensive
`abort()` — after open and close have removed the handle, a further close
reports `notRegistered` and does not abort. -/
theorem refcount_extra_close_counterexample :
    logfopen ⟨8, 4⟩ [] "c" (some ⟨false, []⟩) 0 none true =
      some ([⟨0, "c", 1, 0, 0, none, statZero, 4, ⟨false, []⟩⟩], 0) ∧
    logfclose [⟨0, "c", 1, 0, 0, none, statZero, 4, ⟨false, []⟩⟩] 0 true =
      .ok [] 0 ∧
    logfclose [] 0 true = .notRegistered ∧
    logfclose [] 0 true ≠ .aborted := by
  decide

/-! ### C6: reopen failure teardown -/

lemma liftReg_append (f : Log → HRes) :
    ∀ (pre : List Log) (h : Log) (post : List Log),
      (∀ l ∈ pre, l.id ≠ h.id) →
      liftReg f (pre ++ h :: post) h.id =
        (match f h with
         | .keep l' r => .ok (pre ++ l' :: post) r
         | .drop _ r => .ok (pre ++ post) r
         | .aborted => .aborted) := by
  intro pre
  induction pre with
  | nil =>
    intro h post _
    cases hf : f h <;> simp [liftReg, hf]
  | cons p rest ih =>
    intro h post hids
    have hp : p.id ≠ h.id := hids p (List.mem_cons_self p rest)
    simp only [List.cons_append, liftReg, if_neg hp, List.append_eq]
    rw [ih h post (fun x hx => hids x (List.mem_cons_of_mem p hx))]
    cases hf : f h <;> simp [hf]

lemma logfile_reopenH_fail (l : Log) (env : SysEnv)
    (hfail : ¬(env.reopenOpenOk = true ∧ env.reopenMoveOk = true)) :
    (1 < l.opencount → logfile_reopenH l env =
      .keep { l with opencount := l.opencount - 1,
                     fp := { l.fp with closed := true } } (-1)) ∧
    (l.opencount = 1 → logfile_reopenH l env =
      .drop { l.fp with closed := true } (-1)) := by
  constructor
  · intro hgt
    simp only [logfile_reopenH, if_neg hfail, logfcloseH]
    rw [if_pos (show l.opencount - 1 > 0 from by omega)]
  · intro h1
    simp only [logfile_reopenH, if_neg hfail, logfcloseH]
    rw [if_neg (show ¬(l.opencount - 1 > 0) from by omega),
        if_neg (show ¬(l.opencount - 1 < 0) from by omega)]
    cases hb : l.buffer with
    | none => simp [hb]
    | some bs =>
      simp only [hb]
      rw [fwriteS_fail _ bs env.closeWriteOk (Or.inr (Or.inl rfl))]

/-- C6 (amended): when the reopen protocol's open or descriptor relocation
fails, the handle is closed: its stream descriptor is closed and
`logfclose` runs on it, so the handle is removed from the registry (with
its buffer released) exactly when its `openCount` was 1; with a larger
`openCount` the count is merely decremented and the handle — its stream
now closed — remains registered.  The reopen operation reports failure
(-1) in both cases. -/
theorem logfile_reopen_fail_teardown (env : SysEnv) (h : Log)
    (pre post : List Log)
    (hids : ∀ l ∈ pre, l.id ≠ h.id)
    (hfail : ¬(env.reopenOpenOk = true ∧ env.reopenMoveOk = true)) :
    (h.opencount = 1 →
      logfile_reopen (pre ++ h :: post) h.id env = .ok (pre ++ post) (-1)) ∧
    (1 < h.opencount →
      logfile_reopen (pre ++ h :: post) h.id env =
        .ok (pre ++ { h with opencount := h.opencount - 1,
                             fp := { h.fp with closed := true } } :: post)
          (-1)) := by
  constructor
  · intro h1
    show liftReg (fun l => logfile_reopenH l env) (pre ++ h :: post) h.id = _
    rw [liftReg_append _ pre h post hids,
        (logfile_reopenH_fail h env hfail).2 h1]
  · intro hgt
    show liftReg (fun l => logfile_reopenH l env) (pre ++ h :: post) h.id = _
    rw [liftReg_append _ pre h post hids,
        (logfile_reopenH_fail h env hfail).1 hgt]

/-- Witness for C6 at a sole handle with `openCount = 1`. -/
theorem logfile_reopen_fail_teardown_witness :
    logfile_reopen [⟨0, "t", 1, 0, 0, some [9], statZero, 4, ⟨false, []⟩⟩] 0
        ⟨none, none, false, true, none, true, true, true, true, true⟩ =
      .ok [] (-1) :=
  (logfile_reopen_fail_teardown
    ⟨none, none, false, true, none, true, true, true, true, true⟩
    ⟨0, "t", 1, 0, 0, some [9], statZero, 4, ⟨false, []⟩⟩ [] []
    (by intro l hl; cases hl) (by decide)).1 rfl

/-- Counterexample for C6 as stated: with `openCount = 2` a failed reopen
does not tear the handle down — it stays registered with the count
decremented (and its stream closed), so the teardown is not independent of
`openCount`. -/
theorem logfile_reopen_fail_opencount2_counterexample :
    logfile_reopen [⟨0, "x", 2, 0, 0, some [9], statZero, 4, ⟨false, []⟩⟩] 0
        ⟨none, none, false, true, none, true, true, true, true, true⟩ =
      .ok [⟨0, "x", 1, 0, 0, some [9], statZero, 4, ⟨true, []⟩⟩] (-1) := by
  decide

/-! ### C7: write failure on theft with failed reopen -/

lemma logfwriteH_overflow_theft (cfg : LogCfg) (buf : List Nat) (env : SysEnv)
    (l : Log) (bs : List Nat)
    (hbuf : l.buffer = some bs) (hover : cfg.bufSize < bs.length + buf.length)
    (ht : (periodic_stat_check cfg l env).2 = true) :
    logfwriteH cfg buf env l =
      (match logfile_reopenH (periodic_stat_check cfg l env).1 env with
       | .keep l2 r => if r = 0 then logfwriteH3 cfg buf env l2 else .keep l2 (-1)
       | .drop fp _ => .drop fp (-1)
       | .aborted => .aborted) := by
  simp only [logfwriteH, hbuf, logfwriteH2, Option.getD_some]
  rw [if_neg (by omega)]
  simp [ht]

/-- C7 (amended): on an overflowing write where the periodic check signals
theft and the reopen strategy fails, the write returns -1 and the new
chunk is never written; no byte reaches the backing file at all.  When
`openCount` was greater than 1 the handle survives with the buffered bytes
left in place, untouched; when `openCount` was 1 the failed reopen closes
the handle outright, so the handle — and with it the buffer — is released
(the teardown's best-effort final drain goes to the already-closed stream
and delivers nothing). -/
theorem logfwrite_theft_reopen_fail (cfg : LogCfg) (env : SysEnv) (l : Log)
    (bs buf : List Nat)
    (hbuf : l.buffer = some bs)
    (hover : cfg.bufSize < bs.length + buf.length)
    (ht : (periodic_stat_check cfg l env).2 = true)
    (hfail : ¬(env.reopenOpenOk = true ∧ env.reopenMoveOk = true)) :
    (1 < l.opencount → ∃ l', logfwriteH cfg buf env l = .keep l' (-1) ∧
      l'.buffer = some bs ∧ l'.fp.content = l.fp.content ∧
      l'.opencount = l.opencount - 1) ∧
    (l.opencount = 1 → logfwriteH cfg buf env l =
      .drop { l.fp with closed := true } (-1)) := by
  have hred := logfwriteH_overflow_theft cfg buf env l bs hbuf hover ht
  have hro := logfile_reopenH_fail (periodic_stat_check cfg l env).1 env hfail
  constructor
  · intro hgt
    have hgt1 : 1 < ((periodic_stat_check cfg l env).1).opencount := by
      rw [psc_opencount]
      exact hgt
    refine ⟨{ (periodic_stat_check cfg l env).1 with
              opencount := ((periodic_stat_check cfg l env).1).opencount - 1,
              fp := { ((periodic_stat_check cfg l env).1).fp with closed := true } },
            ?_, ?_, ?_, ?_⟩
    · rw [hred, hro.1 hgt1]
      norm_num
    · simp [hbuf]
    · simp
    · simp
  · intro h1
    have h11 : ((periodic_stat_check cfg l env).1).opencount = 1 := by
      rw [psc_opencount]
      exact h1
    rw [hred, hro.2 h11, psc_fp]

/-- Witness for C7: a sole-owner handle loses its registration when an
overflowing write hits theft with a failing reopen. -/
theorem logfwrite_theft_reopen_fail_witness :
    logfwriteH ⟨2, 4⟩ [7, 8]
        ⟨some ⟨1, 1, 0, 0, 0, 0⟩, none, false, true, none, true, true, true, true, true⟩
        ⟨0, "p", 1, 0, 0, some [1], ⟨1, 1, 1, 0, 0, 0⟩, 1, ⟨false, []⟩⟩ =
      .drop ⟨true, []⟩ (-1) :=
  (logfwrite_theft_reopen_fail ⟨2, 4⟩
    ⟨some ⟨1, 1, 0, 0, 0, 0⟩, none, false, true, none, true, true, true, true, true⟩
    ⟨0, "p", 1, 0, 0, some [1], ⟨1, 1, 1, 0, 0, 0⟩, 1, ⟨false, []⟩⟩
    [1] [7, 8] rfl (by decide) (by decide) (by decide)).2 rfl

/-- Counterexample for C7 as stated: with `openCount = 1`, the failed
reopen on the overflow path removes the handle from the registry
altogether — the buffered bytes are released with it, not left in place. -/
theorem logfwrite_theft_buffer_dropped_counterexample :
    logfwrite ⟨2, 4⟩ [⟨0, "p", 1, 0, 0, some [1], ⟨1, 1, 1, 0, 0, 0⟩, 1, ⟨false, []⟩⟩]
        0 [7, 8]
        ⟨some ⟨1, 1, 0, 0, 0, 0⟩, none, false, true, none, true, true, true, true, true⟩ =
      .ok [] (-1) := by
  decide

/-! ### C8: flush-all and a mid-loop failure -/

lemma flush_log_buffer_flushcount (l : Log) (ok : Bool) :
    ((flush_log_buffer l ok).1).flushcount = l.flushcount := by
  simp only [flush_log_buffer]
  cases hb : l.buffer with
  | none => rfl
  | some bs =>
    dsimp only
    split_ifs <;> rfl

lemma flush_log_buffer_writecount_ge (l : Log) (ok : Bool) :
    l.writecount ≤ ((flush_log_buffer l ok).1).writecount := by
  simp only [flush_log_buffer]
  cases hb : l.buffer with
  | none => exact le_refl _
  | some bs =>
    dsimp only
    split_ifs <;> simp

lemma flush_log_buffer_buffer (l : Log) (ok : Bool) :
    ((flush_log_buffer l ok).1).buffer = none ∨
    ((flush_log_buffer l ok).1).buffer = some [] := by
  simp only [flush_log_buffer]
  cases hb : l.buffer with
  | none => exact Or.inl (by simp [hb])
  | some bs =>
    dsimp only
    split_ifs with h1
    · subst h1
      exact Or.inr (by simp [hb])
    · exact Or.inr rfl
    · exact Or.inr rfl

lemma logfcloseH_stay_shape (l : Log) (ok : Bool) (l' : Log)
    (h : logfcloseH l ok = .stay l') :
    l' = { l with opencount := l.opencount - 1 } := by
  simp only [logfcloseH] at h
  split_ifs at h with h1 h2
  injection h with h3
  exact h3.symm

lemma logfile_reopenH_keep_shape (l : Log) (env : SysEnv) (l2 : Log) (r : Int)
    (h : logfile_reopenH l env = .keep l2 r) :
    l2.flushcount = l.flushcount ∧ l2.writecount = l.writecount ∧
    l2.buffer = l.buffer ∧ l2.opencount ≤ l.opencount := by
  simp only [logfile_reopenH] at h
  split_ifs at h with hc
  · injection h with h1 _
    subst h1
    exact ⟨rfl, rfl, rfl, le_refl _⟩
  · cases hcl : logfcloseH { l with fp := { l.fp with closed := true } }
        env.closeWriteOk with
    | stay l'' =>
      rw [hcl] at h
      injection h with h1 _
      subst h1
      have := logfcloseH_stay_shape _ _ _ hcl
      subst this
      refine ⟨rfl, rfl, rfl, by show l.opencount - 1 ≤ l.opencount; omega⟩
    | gone fp =>
      rw [hcl] at h
      simp at h
    | aborted =>
      rw [hcl] at h
      simp at h

lemma flushStepH2_ok (l : Log) (env : SysEnv) (l' : Log) (ff : Bool)
    (h : flushStepH2 l env = .ok l' ff) :
    l'.flushcount = l.flushcount + 1 ∧
    (l'.buffer = none ∨ l'.buffer = some []) ∧
    l.writecount ≤ l'.writecount := by
  simp only [flushStepH2] at h
  by_cases hf : (flush_log_buffer l env.writeOk).2 < 0
  · rw [if_pos hf] at h
    simp at h
  · rw [if_neg hf] at h
    rw [FStep.ok.injEq] at h
    obtain ⟨h1, h2⟩ := h
    subst h1
    refine ⟨?_, ?_, ?_⟩
    · show ((flush_log_buffer l env.writeOk).1).flushcount + 1 = l.flushcount + 1
      rw [flush_log_buffer_flushcount]
    · show ((flush_log_buffer l env.writeOk).1).buffer = none ∨
        ((flush_log_buffer l env.writeOk).1).buffer = some []
      exact flush_log_buffer_buffer l env.writeOk
    · show l.writecount ≤ ((flush_log_buffer l env.writeOk).1).writecount
      exact flush_log_buffer_writecount_ge l env.writeOk

lemma flushStepH_ok_flushed (cfg : LogCfg) (l : Log) (env : SysEnv)
    (l' : Log) (ff : Bool) (h : flushStepH cfg l env = .ok l' ff) :
    l'.flushcount = l.flushcount + 1 ∧
    (l'.buffer = none ∨ l'.buffer = some []) := by
  simp only [flushStepH] at h
  by_cases hp : (periodic_stat_check cfg l env).2 = true
  · rw [hp] at h
    simp only [if_true] at h
    cases hro : logfile_reopenH (periodic_stat_check cfg l env).1 env with
    | keep l2 r =>
      rw [hro] at h
      dsimp only at h
      split_ifs at h with hr
      obtain ⟨h1, h2, h3⟩ := flushStepH2_ok l2 env l' ff h
      obtain ⟨k1, _, k3, _⟩ :=
        logfile_reopenH_keep_shape (periodic_stat_check cfg l env).1 env l2 r hro
      refine ⟨?_, h2⟩
      rw [h1, k1, psc_flushcount]
    | drop fp r =>
      rw [hro] at h
      simp at h
    | aborted =>
      rw [hro] at h
      simp at h
  · rw [eq_false_of_ne_true hp] at h
    simp only [Bool.false_eq_true, if_false] at h
    obtain ⟨h1, h2, _⟩ := flushStepH2_ok (periodic_stat_check cfg l env).1 env l' ff h
    refine ⟨?_, h2⟩
    rw [h1, psc_flushcount]

lemma logfflushAllGo_midfail (cfg : LogCfg) (envf : Nat → SysEnv) :
    ∀ (pre : List Log) (r : Int) (b : Log) (post : List Log),
      (∀ p ∈ pre, ∃ p' ff, flushStepH cfg p (envf p.id) = .ok p' ff) →
      ∃ pre',
        List.Forall₂ (fun p p' => ∃ ff, flushStepH cfg p (envf p.id) = .ok p' ff)
          pre pre' ∧
        (∀ l', flushStepH cfg b (envf b.id) = .fail l' →
          logfflushAllGo cfg envf (pre ++ b :: post) r = .ok (pre' ++ l' :: post) (-1)) ∧
        (∀ fp, flushStepH cfg b (envf b.id) = .failGone fp →
          logfflushAllGo cfg envf (pre ++ b :: post) r = .ok (pre' ++ post) (-1)) := by
  intro pre
  induction pre with
  | nil =>
    intro r b post _
    refine ⟨[], List.Forall₂.nil, ?_, ?_⟩
    · intro l' hl'
      simp only [List.nil_append, logfflushAllGo, hl']
    · intro fp hfp
      simp only [List.nil_append, logfflushAllGo, hfp]
  | cons p rest ih =>
    intro r b post hpre
    obtain ⟨p', ff, hp⟩ := hpre p (List.mem_cons_self p rest)
    obtain ⟨pre', hfa, hfail', hgone'⟩ :=
      ih (if ff then r else -1) b post
        (fun x hx => hpre x (List.mem_cons_of_mem p hx))
    refine ⟨p' :: pre', List.Forall₂.cons ⟨ff, hp⟩ hfa, ?_, ?_⟩
    · intro l' hl'
      simp only [List.cons_append, logfflushAllGo, hp, List.append_eq]
      rw [hfail' l' hl']
    · intro fp hfp
      simp only [List.cons_append, logfflushAllGo, hp, List.append_eq]
      rw [hgone' fp hfp]

/-- C8 (amended): when the flush-all loop meets a handle whose rotation
check triggers a reopen that fails, the whole call returns -1 at that
point: the handles processed before it have been flushed (their
`flushcount` incremented, their buffers drained), the failing handle is
torn down or kept per its `openCount`, and the handles after it in the
registry are left completely untouched — they are not flushed. -/
theorem logfflushAll_midfail (cfg : LogCfg) (envf : Nat → SysEnv)
    (pre post : List Log) (b : Log)
    (hpre : ∀ p ∈ pre, ∃ p' ff, flushStepH cfg p (envf p.id) = .ok p' ff) :
    ∃ pre',
      List.Forall₂ (fun p p' => ∃ ff, flushStepH cfg p (envf p.id) = .ok p' ff ∧
        p'.flushcount = p.flushcount + 1 ∧
        (p'.buffer = none ∨ p'.buffer = some [])) pre pre' ∧
      (∀ l', flushStepH cfg b (envf b.id) = .fail l' →
        logfflushAll cfg envf (pre ++ b :: post) = .ok (pre' ++ l' :: post) (-1)) ∧
      (∀ fp, flushStepH cfg b (envf b.id) = .failGone fp →
        logfflushAll cfg envf (pre ++ b :: post) = .ok (pre' ++ post) (-1)) := by
  obtain ⟨pre', hfa, hfail', hgone'⟩ := logfflushAllGo_midfail cfg envf pre 0 b post hpre
  refine ⟨pre', ?_, hfail', hgone'⟩
  refine List.Forall₂.imp ?_ hfa
  intro p p' hp
  obtain ⟨ff, hp⟩ := hp
  obtain ⟨h1, h2⟩ := flushStepH_ok_flushed cfg p (envf p.id) p' ff hp
  exact ⟨ff, hp, h1, h2⟩

/-- The environment of a rotation-check that sees an unlinked file and a
reopen whose `open` fails. -/
def envSteal : SysEnv :=
  ⟨some ⟨1, 1, 0, 0, 0, 0⟩, none, false, true, none, true, true, true, true, true⟩

/-- A handle due for its periodic check, with a validly cached stat. -/
def handleA : Log := ⟨0, "a", 1, 0, 0, none, ⟨1, 1, 1, 0, 0, 0⟩, 1, ⟨false, []⟩⟩

/-- A second handle with pending buffered bytes, not yet due for a check. -/
def handleB : Log := ⟨1, "b", 1, 0, 0, some [5], statZero, 9, ⟨false, []⟩⟩

/-- Witness for C8: the failing first handle is torn down and the second
is left in the registry as the loop aborts. -/
theorem logfflushAll_midfail_witness :
    logfflushAll ⟨8, 4⟩ (fun _ => envSteal) [handleA, handleB] =
      .ok [handleB] (-1) := by
  obtain ⟨pre', hfa, _, hgone⟩ :=
    logfflushAll_midfail ⟨8, 4⟩ (fun _ => envSteal) [] [handleB] handleA
      (by intro p hp; cases hp)
  cases hfa
  exact hgone ⟨true, []⟩ (by decide)

/-- Counterexample for C8 as stated: after the first handle's reopen
failure, the second handle is returned untouched — its buffer still holds
its bytes and its `flushcount` is unchanged, so it was NOT flushed. -/
theorem logfflushAll_abandons_rest_counterexample :
    logfflushAll ⟨8, 4⟩ (fun _ => envSteal) [handleA, handleB] =
      .ok [⟨1, "b", 1, 0, 0, some [5], statZero, 9, ⟨false, []⟩⟩] (-1) ∧
    handleB.buffer = some [5] ∧ handleB.flushcount = 0 := by
  decide

/-! ### C9: counters -/

lemma logfwriteH3_counts (cfg : LogCfg) (buf : List Nat) (env : SysEnv)
    (l l' : Log) (r : Int) (h : logfwriteH3 cfg buf env l = .keep l' r) :
    l.writecount ≤ l'.writecount ∧
    (l.flushcount ≤ l'.flushcount ∨ l'.flushcount = 0) := by
  simp only [logfwriteH3] at h
  by_cases h1 : (flush_log_buffer l env.writeOk).2 < 0
  · rw [if_pos h1] at h
    rw [HRes.keep.injEq] at h
    obtain ⟨e1, _⟩ := h
    subst e1
    exact ⟨flush_log_buffer_writecount_ge l env.writeOk,
      Or.inl (le_of_eq (flush_log_buffer_flushcount l env.writeOk).symm)⟩
  · rw [if_neg h1] at h
    by_cases h2 : buf.length ≤ cfg.bufSize
    · rw [if_pos h2] at h
      rw [HRes.keep.injEq] at h
      obtain ⟨e1, _⟩ := h
      subst e1
      refine ⟨?_, Or.inl ?_⟩
      · show l.writecount ≤ ((flush_log_buffer l env.writeOk).1).writecount
        exact flush_log_buffer_writecount_ge l env.writeOk
      · show l.flushcount ≤ ((flush_log_buffer l env.writeOk).1).flushcount
        exact le_of_eq (flush_log_buffer_flushcount l env.writeOk).symm
    · rw [if_neg h2] at h
      split_ifs at h with h3 <;> rw [HRes.keep.injEq] at h <;>
        obtain ⟨e1, _⟩ := h <;> subst e1
      · refine ⟨?_, Or.inr rfl⟩
        show l.writecount ≤ ((flush_log_buffer l env.writeOk).1).writecount + 1
        have := flush_log_buffer_writecount_ge l env.writeOk
        omega
      · refine ⟨?_, Or.inl ?_⟩
        · show l.writecount ≤ ((flush_log_buffer l env.writeOk).1).writecount
          exact flush_log_buffer_writecount_ge l env.writeOk
        · show l.flushcount ≤ ((flush_log_buffer l env.writeOk).1).flushcount
          exact le_of_eq (flush_log_buffer_flushcount l env.writeOk).symm

lemma logfwriteH2_counts (cfg : LogCfg) (buf : List Nat) (env : SysEnv)
    (l l' : Log) (r : Int) (h : logfwriteH2 cfg buf env l = .keep l' r) :
    l.writecount ≤ l'.writecount ∧
    (l.flushcount ≤ l'.flushcount ∨ l'.flushcount = 0) := by
  simp only [logfwriteH2] at h
  by_cases hfit : (l.buffer.getD []).length + buf.length ≤ cfg.bufSize
  · rw [if_pos hfit] at h
    rw [HRes.keep.injEq] at h
    obtain ⟨e1, _⟩ := h
    subst e1
    exact ⟨le_refl _, Or.inl (le_refl _)⟩
  · rw [if_neg hfit] at h
    by_cases hp : (periodic_stat_check cfg l env).2 = true
    · rw [hp, if_pos rfl] at h
      cases hro : logfile_reopenH (periodic_stat_check cfg l env).1 env with
      | keep l2 r2 =>
        rw [hro] at h
        dsimp only at h
        obtain ⟨k1, k2, _, _⟩ :=
          logfile_reopenH_keep_shape (periodic_stat_check cfg l env).1 env l2 r2 hro
        rw [psc_flushcount] at k1
        rw [psc_writecount] at k2
        split_ifs at h with hr
        · obtain ⟨c1, c2⟩ := logfwriteH3_counts cfg buf env l2 l' r h
          refine ⟨by omega, ?_⟩
          rcases c2 with c2 | c2
          · exact Or.inl (by omega)
          · exact Or.inr c2
        · rw [HRes.keep.injEq] at h
          obtain ⟨e1, _⟩ := h
          subst e1
          exact ⟨le_of_eq k2.symm, Or.inl (le_of_eq k1.symm)⟩
      | drop fp r2 =>
        rw [hro] at h
        simp at h
      | aborted =>
        rw [hro] at h
        simp at h
    · rw [eq_false_of_ne_true hp] at h
      simp only [Bool.false_eq_true, if_false] at h
      obtain ⟨c1, c2⟩ :=
        logfwriteH3_counts cfg buf env (periodic_stat_check cfg l env).1 l' r h
      rw [psc_writecount] at c1
      rw [psc_flushcount] at c2
      exact ⟨c1, c2⟩

lemma logfwriteH_counts (cfg : LogCfg) (buf : List Nat) (env : SysEnv)
    (l l' : Log) (r : Int) (h : logfwriteH cfg buf env l = .keep l' r) :
    l.writecount ≤ l'.writecount ∧
    (l.flushcount ≤ l'.flushcount ∨ l'.flushcount = 0) := by
  simp only [logfwriteH] at h
  cases hb : l.buffer with
  | none =>
    rw [hb] at h
    dsimp only at h
    by_cases ha : env.allocOk = true
    · rw [if_pos ha] at h
      exact logfwriteH2_counts cfg buf env { l with buffer := some [] } l' r h
    · rw [if_neg ha] at h
      rw [HRes.keep.injEq] at h
      obtain ⟨e1, _⟩ := h
      subst e1
      exact ⟨le_refl _, Or.inl (le_refl _)⟩
  | some bs =>
    rw [hb] at h
    dsimp only at h
    exact logfwriteH2_counts cfg buf env _ l' r h

lemma flushStepH2_counts_fail (l : Log) (env : SysEnv) (l' : Log)
    (h : flushStepH2 l env = .fail l') :
    l.writecount ≤ l'.writecount ∧ l.flushcount ≤ l'.flushcount := by
  simp only [flushStepH2] at h
  by_cases hf : (flush_log_buffer l env.writeOk).2 < 0
  · rw [if_pos hf] at h
    injection h with h1
    subst h1
    exact ⟨flush_log_buffer_writecount_ge l env.writeOk,
      le_of_eq (flush_log_buffer_flushcount l env.writeOk).symm⟩
  · rw [if_neg hf] at h
    simp at h

lemma flushStepH2_counts_ok (l : Log) (env : SysEnv) (l' : Log) (ff : Bool)
    (h : flushStepH2 l env = .ok l' ff) :
    l.writecount ≤ l'.writecount ∧ l.flushcount ≤ l'.flushcount := by
  simp only [flushStepH2] at h
  by_cases hf : (flush_log_buffer l env.writeOk).2 < 0
  · rw [if_pos hf] at h
    simp at h
  · rw [if_neg hf] at h
    rw [FStep.ok.injEq] at h
    obtain ⟨h1, _⟩ := h
    subst h1
    refine ⟨?_, ?_⟩
    · show l.writecount ≤ ((flush_log_buffer l env.writeOk).1).writecount
      exact flush_log_buffer_writecount_ge l env.writeOk
    · show l.flushcount ≤ ((flush_log_buffer l env.writeOk).1).flushcount + 1
      have := flush_log_buffer_flushcount l env.writeOk
      omega

lemma flushStepH_counts (cfg : LogCfg) (l : Log) (env : SysEnv) :
    (∀ l' ff, flushStepH cfg l env = .ok l' ff →
      l.writecount ≤ l'.writecount ∧ l.flushcount ≤ l'.flushcount) ∧
    (∀ l', flushStepH cfg l env = .fail l' →
      l.writecount ≤ l'.writecount ∧ l.flushcount ≤ l'.flushcount) := by
  have main : ∀ s, flushStepH cfg l env = s →
      (∀ l' ff, s = .ok l' ff →
        l.writecount ≤ l'.writecount ∧ l.flushcount ≤ l'.flushcount) ∧
      (∀ l', s = .fail l' →
        l.writecount ≤ l'.writecount ∧ l.flushcount ≤ l'.flushcount) := by
    intro s hs
    simp only [flushStepH] at hs
    by_cases hp : (periodic_stat_check cfg l env).2 = true
    · rw [hp, if_pos rfl] at hs
      cases hro : logfile_reopenH (periodic_stat_check cfg l env).1 env with
      | keep l2 r2 =>
        rw [hro] at hs
        dsimp only at hs
        obtain ⟨k1, k2, _, _⟩ :=
          logfile_reopenH_keep_shape (periodic_stat_check cfg l env).1 env l2 r2 hro
        rw [psc_flushcount] at k1
        rw [psc_writecount] at k2
        split_ifs at hs with hr
        · constructor
          · intro l' ff he
            rw [← hs] at he
            obtain ⟨c1, c2⟩ := flushStepH2_counts_ok l2 env l' ff he
            exact ⟨by omega, by omega⟩
          · intro l' he
            rw [← hs] at he
            obtain ⟨c1, c2⟩ := flushStepH2_counts_fail l2 env l' he
            exact ⟨by omega, by omega⟩
        · constructor
          · intro l' ff he
            rw [← hs] at he
            simp at he
          · intro l' he
            rw [← hs] at he
            rw [FStep.fail.injEq] at he
            subst he
            exact ⟨le_of_eq k2.symm, le_of_eq k1.symm⟩
      | drop fp r2 =>
        rw [hro] at hs
        dsimp only at hs
        constructor
        · intro l' ff he
          rw [← hs] at he
          simp at he
        · intro l' he
          rw [← hs] at he
          simp at he
      | aborted =>
        rw [hro] at hs
        dsimp only at hs
        constructor
        · intro l' ff he
          rw [← hs] at he
          simp at he
        · intro l' he
          rw [← hs] at he
          simp at he
    · rw [eq_false_of_ne_true hp] at hs
      simp only [Bool.false_eq_true, if_false] at hs
      constructor
      · intro l' ff he
        rw [← hs] at he
        obtain ⟨c1, c2⟩ :=
          flushStepH2_counts_ok (periodic_stat_check cfg l env).1 env l' ff he
        rw [psc_writecount] at c1
        rw [psc_flushcount] at c2
        exact ⟨c1, c2⟩
      · intro l' he
        rw [← hs] at he
        obtain ⟨c1, c2⟩ :=
          flushStepH2_counts_fail (periodic_stat_check cfg l env).1 env l' he
        rw [psc_writecount] at c1
        rw [psc_flushcount] at c2
        exact ⟨c1, c2⟩
  exact ⟨fun l' ff h => (main _ rfl).1 l' ff h,
         fun l' h => (main _ rfl).2 l' h⟩

/-- C9 (amended): across Write, Flush (both the per-handle step of the
flush-all loop and the specific-handle flush, successful or drain-failed)
and the surviving-handle path of Close, `writeCount` never decreases and
`flushCount` never decreases — except that a Write which bypasses the
buffer (an oversized chunk written directly to the stream) resets
`flushCount` to zero. -/
theorem counters_monotone (cfg : LogCfg) (env : SysEnv) (buf : List Nat)
    (l : Log) (clOk : Bool) :
    (∀ l' r, logfwriteH cfg buf env l = .keep l' r →
      l.writecount ≤ l'.writecount ∧
      (l.flushcount ≤ l'.flushcount ∨ l'.flushcount = 0)) ∧
    (∀ l' ff, flushStepH cfg l env = .ok l' ff →
      l.writecount ≤ l'.writecount ∧ l.flushcount ≤ l'.flushcount) ∧
    (∀ l', flushStepH cfg l env = .fail l' →
      l.writecount ≤ l'.writecount ∧ l.flushcount ≤ l'.flushcount) ∧
    (∀ l', logfcloseH l clOk = .stay l' →
      l'.writecount = l.writecount ∧ l'.flushcount = l.flushcount) := by
  refine ⟨fun l' r h => logfwriteH_counts cfg buf env l l' r h,
          (flushStepH_counts cfg l env).1,
          (flushStepH_counts cfg l env).2, ?_⟩
  intro l' h
  have := logfcloseH_stay_shape l clOk l' h
  subst this
  exact ⟨rfl, rfl⟩

/-- An environment in which every syscall succeeds. -/
def envAllOk : SysEnv := ⟨none, none, true, true, none, true, true, true, true, true⟩

/-- A handle with `flushcount = 1`, an allocated empty buffer, and a check
not yet due. -/
def handleM : Log := ⟨0, "m", 1, 0, 1, some [], statZero, 9, ⟨false, []⟩⟩

/-- `handleM` after a direct write of a 3-byte chunk past a 2-byte
capacity: `writecount` up, `flushcount` reset to 0. -/
def handleM' : Log := ⟨0, "m", 1, 1, 0, some [], statZero, 8, ⟨false, [1, 2, 3]⟩⟩

/-- Witness for C9 at the concrete direct write. -/
theorem counters_monotone_witness :
    handleM.writecount ≤ handleM'.writecount ∧
    (handleM.flushcount ≤ handleM'.flushcount ∨ handleM'.flushcount = 0) :=
  (counters_monotone ⟨2, 4⟩ envAllOk [1, 2, 3] handleM true).1 handleM' 1 (by decide)

/-- Counterexample for C9 as stated: the direct-write path of `logfwrite`
resets `flushcount` to 0, here strictly decreasing it from 1 — the
counter is not monotone under Write. -/
theorem flushcount_reset_counterexample :
    logfwriteH ⟨2, 4⟩ [1, 2, 3] envAllOk handleM = .keep handleM' 1 ∧
    handleM'.flushcount < handleM.flushcount := by
  decide

/-! ### C10: allocation-failure fallback -/

/-- C10: when the lazy buffer allocation fails, `logfwrite` falls back to
one raw `fwrite` of the chunk, returning its item count — 1 on success,
0 (never the -1 sentinel) on failure — and the buffer stays unallocated,
so allocation will be re-attempted by the next write. -/
theorem logfwrite_alloc_fail (cfg : LogCfg) (env : SysEnv) (l : Log)
    (buf : List Nat)
    (hbuf : l.buffer = none) (halloc : env.allocOk = false)
    (hop : l.fp.closed = false) (hne : buf ≠ []) :
    (env.directOk = true → logfwriteH cfg buf env l =
      .keep { l with fp := { l.fp with content := l.fp.content ++ buf } } 1) ∧
    (env.directOk = false → logfwriteH cfg buf env l = .keep l 0) ∧
    (∀ l' r, logfwriteH cfg buf env l = .keep l' r → l'.buffer = none) := by
  have hred : logfwriteH cfg buf env l =
      .keep { l with fp := (fwriteS l.fp buf env.directOk).1 }
        (if (fwriteS l.fp buf env.directOk).2 then 1 else 0) := by
    simp only [logfwriteH, hbuf]
    rw [if_neg (by rw [halloc]; simp)]
  refine ⟨?_, ?_, ?_⟩
  · intro hd
    rw [hred, hd, fwriteS_success l.fp buf hne hop]
    simp
  · intro hd
    rw [hred, fwriteS_fail l.fp buf env.directOk (Or.inr (Or.inr hd))]
    simp
  · intro l' r h
    rw [hred] at h
    rw [HRes.keep.injEq] at h
    obtain ⟨e1, _⟩ := h
    subst e1
    exact hbuf

/-- Witness for C10: both the success (returns 1, bytes land) and the
failed direct write (returns 0, not -1) at a concrete unbuffered handle. -/
theorem logfwrite_alloc_fail_witness :
    logfwriteH ⟨8, 4⟩ [3, 4]
        ⟨none, none, true, true, none, true, false, true, true, true⟩
        ⟨0, "u", 1, 0, 0, none, statZero, 4, ⟨false, [9]⟩⟩ =
      .keep ⟨0, "u", 1, 0, 0, none, statZero, 4, ⟨false, [9, 3, 4]⟩⟩ 1 ∧
    logfwriteH ⟨8, 4⟩ [3, 4]
        ⟨none, none, true, true, none, true, false, true, false, true⟩
        ⟨0, "u", 1, 0, 0, none, statZero, 4, ⟨false, [9]⟩⟩ =
      .keep ⟨0, "u", 1, 0, 0, none, statZero, 4, ⟨false, [9]⟩⟩ 0 := by
  constructor
  · exact (logfwrite_alloc_fail ⟨8, 4⟩
      ⟨none, none, true, true, none, true, false, true, true, true⟩
      ⟨0, "u", 1, 0, 0, none, statZero, 4, ⟨false, [9]⟩⟩
      [3, 4] rfl rfl rfl (by decide)).1 rfl
  · exact (logfwrite_alloc_fail ⟨8, 4⟩
      ⟨none, none, true, true, none, true, false, true, false, true⟩
      ⟨0, "u", 1, 0, 0, none, statZero, 4, ⟨false, [9]⟩⟩
      [3, 4] rfl rfl rfl (by decide)).2.1 rfl

end ImmorTerm
